import Mathlib

/-!
Verification of the core subsystems of `yusing/goutils` against its
natural-language specification.

The Go source is shallowly embedded: pure helpers become Lean functions,
stateful code becomes explicit state passing, machine integers become
`Nat`/`Int` (the sizes involved never approach overflow, and the Go code
performs no wrapping arithmetic on them), and time is an abstract `Nat`
tick count.  Each definition carries a comment naming the Go function it
embeds (file and symbol).
-/

/-! ## Buffer pool size arithmetic (`synk/pool.go`) -/

/-- Number of sized tiers; `SizedPools` in `synk/pool.go`. -/
def sizedPools : Nat := 11

/-- `MinAllocSize` in `synk/pool.go` (4 KiB). -/
def minAllocSize : Nat := 4 * 1024

/-- `allocSize(idx) = 1024 * (2 << idx)` from `synk/pool.go`. -/
def allocSize (idx : Nat) : Nat := 1024 * (2 <<< idx)

/-- Go's `bits.Len` on a natural number: number of bits required to
represent `n`; zero for `n = 0`. -/
def bitsLen (n : Nat) : Nat := if n = 0 then 0 else Nat.log2 n + 1

/-- `poolIdx` from `synk/pool.go`:
`if size <= 0 { return 0 }; return min(SizedPools-1, max(0, bits.Len(uint(size-1))-11))`.
Go's `max(0, a-11)` on ints is truncated subtraction on `Nat`. -/
def poolIdx (size : Int) : Nat :=
  if size ≤ 0 then 0
  else min (sizedPools - 1) (bitsLen (size - 1).toNat - 11)

theorem allocSize_eq (i : Nat) : allocSize i = 2 ^ (11 + i) := by
  simp [allocSize, Nat.shiftLeft_eq, pow_add]
  ring

theorem bitsLen_lt_two_pow (m : Nat) : m < 2 ^ bitsLen m := by
  unfold bitsLen
  by_cases h : m = 0
  · simp [h]
  · simp only [h, if_false]
    exact Nat.lt_log2_self

theorem bitsLen_le_of_lt_two_pow {m k : Nat} (h : m < 2 ^ k) : bitsLen m ≤ k := by
  unfold bitsLen
  by_cases h0 : m = 0
  · simp [h0]
  · simp only [h0, if_false]
    have := (Nat.log2_lt h0).mpr h
    omega

theorem bitsLen_mono {m1 m2 : Nat} (h : m1 ≤ m2) : bitsLen m1 ≤ bitsLen m2 := by
  exact bitsLen_le_of_lt_two_pow (Nat.lt_of_le_of_lt h (bitsLen_lt_two_pow m2))

theorem le_allocSize_poolIdx {s : Int} (hs : 0 < s)
    (hle : s ≤ (allocSize (sizedPools - 1) : Int)) :
    s ≤ (allocSize (poolIdx s) : Int) := by
  have hnot : ¬ s ≤ 0 := by omega
  unfold poolIdx
  simp only [hnot, if_false]
  have hA : allocSize (sizedPools - 1) = 2097152 := by rfl
  rw [hA] at hle
  have hsm : s = ((s - 1).toNat : Int) + 1 := by omega
  set m := (s - 1).toNat with hm
  have hm21 : m < 2 ^ 21 := by omega
  have hb : bitsLen m ≤ 21 := bitsLen_le_of_lt_two_pow hm21
  have hmlt : m < 2 ^ bitsLen m := bitsLen_lt_two_pow m
  by_cases hb11 : bitsLen m ≤ 11
  · have hidx : min (sizedPools - 1) (bitsLen m - 11) = 0 := by
      simp [sizedPools]; omega
    rw [hidx]
    have h1 : m < 2 ^ 11 :=
      Nat.lt_of_lt_of_le hmlt (Nat.pow_le_pow_right (by norm_num) hb11)
    have hA0 : allocSize 0 = 2048 := by rfl
    rw [hA0]
    have : (2 : Nat) ^ 11 = 2048 := by norm_num
    omega
  · have hidx : min (sizedPools - 1) (bitsLen m - 11) = bitsLen m - 11 := by
      simp [sizedPools]; omega
    rw [hidx]
    have hAe : allocSize (bitsLen m - 11) = 2 ^ bitsLen m := by
      rw [allocSize_eq]
      congr 1
      omega
    rw [hAe]
    omega

/-- C9: for every positive request size up to the largest sized tier, the tier
index chosen by `poolIdx` has nominal allocation capacity at least the request,
and `poolIdx` is monotone non-decreasing in the size. -/
theorem poolIdx_alloc_ge_and_mono :
    (∀ s : Int, 0 < s → s ≤ (allocSize (sizedPools - 1) : Int) →
      s ≤ (allocSize (poolIdx s) : Int)) ∧
    (∀ s1 s2 : Int, s1 ≤ s2 → poolIdx s1 ≤ poolIdx s2) := by
  constructor
  · intro s hs hle
    exact le_allocSize_poolIdx hs hle
  · intro s1 s2 h
    by_cases h1 : s1 ≤ 0
    · simp [poolIdx, h1]
    · have h2 : ¬ s2 ≤ 0 := by omega
      unfold poolIdx
      simp only [h1, h2, if_false]
      have hmm : (s1 - 1).toNat ≤ (s2 - 1).toNat := by omega
      have := bitsLen_mono hmm
      omega

/-- Witness for the C9 theorem at concrete inputs. -/
theorem poolIdx_alloc_ge_and_mono_wit :
    (5000 : Int) ≤ (allocSize (poolIdx 5000) : Int) ∧ poolIdx 3000 ≤ poolIdx 600000 :=
  ⟨poolIdx_alloc_ge_and_mono.1 5000 (by decide) (by decide),
   poolIdx_alloc_ge_and_mono.2 3000 600000 (by decide)⟩

/-! ## Association-list rendering of the concurrent map (`xsync.Map`)

The Go code uses `xsync.Map`; the sequential semantics of `Load`, `Store`,
`LoadAndDelete` and `LoadOrCompute` is an association list with unique keys. -/

def mapLoad {K V : Type} [DecidableEq K] : List (K × V) → K → Option V
  | [], _ => none
  | (k, v) :: rest, key => if k = key then some v else mapLoad rest key

def mapStore {K V : Type} [DecidableEq K] : List (K × V) → K → V → List (K × V)
  | [], key, v => [(key, v)]
  | (k, w) :: rest, key, v =>
    if k = key then (key, v) :: rest else (k, w) :: mapStore rest key v

def mapDelete {K V : Type} [DecidableEq K] : List (K × V) → K → List (K × V)
  | [], _ => []
  | (k, w) :: rest, key => if k = key then rest else (k, w) :: mapDelete rest key

theorem mapLoad_mapStore_self {K V : Type} [DecidableEq K]
    (m : List (K × V)) (k : K) (v : V) : mapLoad (mapStore m k v) k = some v := by
  induction m with
  | nil => simp [mapStore, mapLoad]
  | cons hd tl ih =>
    obtain ⟨k0, v0⟩ := hd
    by_cases h : k0 = k
    · simp [mapStore, mapLoad, h]
    · simp [mapStore, mapLoad, h, ih]

/-! ## Object registry with tombstones (`pool/pool.go`) -/

/-- `recentlyRemovedTTL = time.Second`, in nanosecond ticks. -/
def recentlyRemovedTTL : Int := 1000000000

/-- `tombPurgeThreshold` from `pool/pool.go`. -/
def tombPurgeThreshold : Nat := 256

/-- `removedInfo` from `pool/pool.go`; times are abstract ticks. -/
structure RemovedInfo where
  name : String
  display : String
  removedAt : Int
deriving Repr, DecidableEq

/-- The zero value of `removedInfo`. -/
def zeroRemoved : RemovedInfo := ⟨"", "", 0⟩

/-- `entry[T]` from `pool/pool.go`.  A tombstone stores the zero value of `T`
in `obj`, modelled by `Inhabited.default`. -/
structure PoolEntry (T : Type) where
  obj : T
  removed : RemovedInfo
  tomb : Bool
deriving Repr, DecidableEq

/-- The method set of a pooled object: `Key`/`Name` from the `Object`
interface, the optional `ObjectWithDisplayName` and `Preferable` interfaces
(`none` models a type that does not implement the interface). -/
structure ObjectImpl (T : Type) where
  key : T → String
  name : T → String
  displayName : Option (T → String)
  preferOver : Option (T → T → Bool)

/-- `displayNameOf` from `pool/pool.go`. -/
def displayNameOf {T : Type} (impl : ObjectImpl T) (obj : T) : String :=
  match impl.displayName with
  | some f => f obj
  | none => impl.name obj

/-- `Pool[T]` from `pool/pool.go`.  The `tombs` counter is a `uint32` in Go;
`logs` records the `(action, name)` pairs emitted through `logAction` and
`logRemoved`. -/
structure GoPool (T : Type) where
  m : List (String × PoolEntry T)
  disableLog : Bool
  tombs : Nat
  logs : List (String × String)
deriving Repr, DecidableEq

/-- `uint32` increment of the tombstone counter. -/
def incr32 (n : Nat) : Nat := (n + 1) % 4294967296

/-- `tombs.Add(^uint32(0))`: `uint32` decrement of the tombstone counter. -/
def decr32 (n : Nat) : Nat := (n + 4294967295) % 4294967296

/-- `logAction` from `pool/pool.go`, recording `(action, name)`. -/
def logAction {T : Type} (impl : ObjectImpl T) (p : GoPool T) (action : String) (obj : T) :
    List (String × String) :=
  if p.disableLog then p.logs else p.logs ++ [(action, impl.name obj)]

/-- `logRemoved` from `pool/pool.go`. -/
def logRemoved {T : Type} (p : GoPool T) (info : RemovedInfo) : List (String × String) :=
  if p.disableLog then p.logs else p.logs ++ [("removed", info.name)]

/-- One `Range` step of `PurgeExpiredTombs` from `pool/pool.go`: skip live or
fresh entries, re-verify under `Load`, `LoadAndDelete`, then either count the
purge or restore the entry. -/
def purgeStep {T : Type} (now : Int) (p : GoPool T) (kv : String × PoolEntry T) : GoPool T :=
  let k := kv.1
  let v := kv.2
  if !v.tomb || now - v.removed.removedAt < recentlyRemovedTTL then p
  else
    match mapLoad p.m k with
    | none => p
    | some cur =>
      if !cur.tomb || cur.removed.removedAt != v.removed.removedAt then p
      else
        match mapLoad p.m k with
        | none => p
        | some deleted =>
          let m2 := mapDelete p.m k
          if deleted.tomb && decide (now - deleted.removed.removedAt ≥ recentlyRemovedTTL) then
            { p with m := m2, tombs := decr32 p.tombs, logs := logRemoved p deleted.removed }
          else { p with m := mapStore m2 k deleted }

/-- `PurgeExpiredTombs` from `pool/pool.go`: `Range` over the map applying
`purgeStep` (the returned purge count is ignored by callers). -/
def purgeExpiredTombs {T : Type} (now : Int) (p : GoPool T) : GoPool T :=
  p.m.foldl (purgeStep now) p

/-- `Pool.delKey` from `pool/pool.go`: soft delete to a tombstone (the stored
object becomes the zero value), increment the tombstone counter, and purge
opportunistically past the threshold. -/
def delKey {T : Type} [Inhabited T] (impl : ObjectImpl T) (p : GoPool T) (now : Int)
    (key : String) (display : String) : GoPool T :=
  match mapLoad p.m key with
  | none => p
  | some cur =>
    if cur.tomb then p
    else
      let info : RemovedInfo :=
        { removedAt := now, name := impl.name cur.obj,
          display := if display = "" then displayNameOf impl cur.obj else display }
      let p2 : GoPool T :=
        { p with m := mapStore p.m key ⟨default, info, true⟩, tombs := incr32 p.tombs }
      if p2.tombs > tombPurgeThreshold then purgeExpiredTombs now p2 else p2

/-- `Pool.AddKey` from `pool/pool.go`.  The early return fires only when the
current entry is live AND the new object implements `Preferable` AND
`PreferOver` yields false; `checkExists` is a debug-build log with no state
effect. -/
def addKey {T : Type} (impl : ObjectImpl T) (p : GoPool T) (now : Int)
    (key : String) (obj : T) : GoPool T :=
  let keep : Bool :=
    match mapLoad p.m key with
    | some cur =>
      if !cur.tomb then
        match impl.preferOver with
        | some pref => !pref obj cur.obj
        | none => false
      else false
    | none => false
  if keep then p
  else
    let (action, tombs2) :=
      match mapLoad p.m key with
      | some cur =>
        if cur.tomb then
          (if now - cur.removed.removedAt < recentlyRemovedTTL then "reloaded" else "added",
           decr32 p.tombs)
        else ("added", p.tombs)
      | none => ("added", p.tombs)
    let p2 : GoPool T := { p with tombs := tombs2, m := mapStore p.m key ⟨obj, zeroRemoved, false⟩ }
    { p2 with logs := logAction impl p2 action obj }

/-- `Pool.Add` from `pool/pool.go`. -/
def addObj {T : Type} (impl : ObjectImpl T) (p : GoPool T) (now : Int) (obj : T) : GoPool T :=
  addKey impl p now (impl.key obj) obj

/-- `Pool.AddIfNotExists` from `pool/pool.go`.  Returns `((actual, added), pool)`. -/
def addIfNotExists {T : Type} (impl : ObjectImpl T) (p : GoPool T) (now : Int)
    (obj : T) : (T × Bool) × GoPool T :=
  let key := impl.key obj
  match mapLoad p.m key with
  | some cur =>
    if !cur.tomb then ((cur.obj, false), p)
    else if now - cur.removed.removedAt < recentlyRemovedTTL then
      let p2 : GoPool T := { p with
        tombs := decr32 p.tombs
        m := mapStore p.m key ⟨obj, zeroRemoved, false⟩ }
      ((obj, true), { p2 with logs := logAction impl p2 "reloaded" obj })
    else ((cur.obj, false), p)
  | none =>
    let p2 : GoPool T := { p with m := mapStore p.m key ⟨obj, zeroRemoved, false⟩ }
    ((obj, true), { p2 with logs := logAction impl p2 "added" obj })

/-- `Pool.Get` from `pool/pool.go`: returns only live entries. -/
def poolGet {T : Type} [Inhabited T] (p : GoPool T) (key : String) : T × Bool :=
  match mapLoad p.m key with
  | none => (default, false)
  | some cur => if cur.tomb then (default, false) else (cur.obj, true)

/-- A concrete pooled object type for counterexamples; its Go zero value is
`{key := "", name := ""}`. -/
structure SObj where
  key : String
  name : String
deriving Repr, DecidableEq, Inhabited

/-- Method set of `SObj` when it implements only `Object`. -/
def sObjImpl : ObjectImpl SObj := ⟨SObj.key, SObj.name, none, none⟩

/-- Method set of `SObj` when it also implements `Preferable` with a
`PreferOver` that always answers false. -/
def sObjImplPref : ObjectImpl SObj := ⟨SObj.key, SObj.name, none, some (fun _ _ => false)⟩

/-- The empty registry. -/
def emptyPool : GoPool SObj := ⟨[], false, 0, []⟩

/-- A registry holding a live object `A` under key `"k"` (non-Preferable impl). -/
def pLiveA : GoPool SObj := addKey sObjImpl emptyPool 0 "k" ⟨"k", "A"⟩

/-- A registry holding a live object `A` under key `"k"` (Preferable impl). -/
def pLiveAP : GoPool SObj := addKey sObjImplPref emptyPool 0 "k" ⟨"k", "A"⟩

/-- A registry where key `"k"` holds a tombstone created at tick 100. -/
def pTombA : GoPool SObj := delKey sObjImpl pLiveA 100 "k" ""

/-- C4 counterexample: on a tombstone younger than the TTL, `AddIfNotExists`
does NOT return `added = false` with the removed object's identity; it
replaces the tombstone and returns the new object with `added = true`
(`pool/pool.go` lines 105-110). -/
theorem addIfNotExists_freshTomb_cex :
    (addIfNotExists sObjImpl pTombA 200 ⟨"k", "A2"⟩).1 = (⟨"k", "A2"⟩, true) := by decide

/-- C4 amended: `AddIfNotExists` never overwrites a live entry (returns the
live object, `added = false`); on a tombstone younger than the TTL it replaces
the tombstone with the new object and returns `(new, added = true)`; on an
expired tombstone it is a no-op returning the tombstone's stored zero-value
object with `added = false`. -/
theorem addIfNotExists_semantics {T : Type} (impl : ObjectImpl T) (p : GoPool T)
    (now : Int) (obj : T) (cur : PoolEntry T)
    (hload : mapLoad p.m (impl.key obj) = some cur) :
    (cur.tomb = false → addIfNotExists impl p now obj = ((cur.obj, false), p)) ∧
    (cur.tomb = true → now - cur.removed.removedAt < recentlyRemovedTTL →
      (addIfNotExists impl p now obj).1 = (obj, true) ∧
      mapLoad (addIfNotExists impl p now obj).2.m (impl.key obj) =
        some ⟨obj, zeroRemoved, false⟩) ∧
    (cur.tomb = true → recentlyRemovedTTL ≤ now - cur.removed.removedAt →
      addIfNotExists impl p now obj = ((cur.obj, false), p)) := by
  refine ⟨?_, ?_, ?_⟩
  · intro hlive
    simp [addIfNotExists, hload, hlive]
  · intro htomb htime
    simp [addIfNotExists, hload, htomb, htime, mapLoad_mapStore_self]
  · intro htomb htime
    simp [addIfNotExists, hload, htomb, not_lt.mpr htime]

/-- Witness for `addIfNotExists_semantics`: the live-entry and expired-tombstone
branches at concrete registries. -/
theorem addIfNotExists_semantics_wit :
    addIfNotExists sObjImpl pLiveA 5 ⟨"k", "B"⟩ = ((⟨"k", "A"⟩, false), pLiveA) ∧
    addIfNotExists sObjImpl pTombA 2000000000 ⟨"k", "A2"⟩ =
      ((⟨"", ""⟩, false), pTombA) :=
  ⟨(addIfNotExists_semantics sObjImpl pLiveA 5 ⟨"k", "B"⟩
      ⟨⟨"k", "A"⟩, zeroRemoved, false⟩ (by decide)).1 (by decide),
   (addIfNotExists_semantics sObjImpl pTombA 2000000000 ⟨"k", "A2"⟩
      ⟨⟨"", ""⟩, ⟨"A", "A", 100⟩, true⟩ (by decide)).2.2 (by decide) (by decide)⟩

/-- C7 counterexample: with a live entry under `"k"`, adding a NEW object that
does not implement `Preferable` is not a no-op: it replaces the live entry
(`pool/pool.go` line 79 requires the type assertion to succeed before the
early return can fire). -/
theorem addKey_nonPreferable_replaces_cex :
    mapLoad (addKey sObjImpl pLiveA 1 "k" ⟨"k", "B"⟩).m "k" =
      some ⟨⟨"k", "B"⟩, zeroRemoved, false⟩ ∧
    mapLoad pLiveA.m "k" = some ⟨⟨"k", "A"⟩, zeroRemoved, false⟩ := by decide

/-- C7 amended: with a live entry under the key, `AddKey` is a no-op exactly
when the new object implements `Preferable` and `PreferOver(current)` answers
false; a new object that does not implement `Preferable` replaces the live
entry. -/
theorem addKey_live_semantics {T : Type} (impl : ObjectImpl T) (p : GoPool T)
    (now : Int) (key : String) (obj : T) (cur : PoolEntry T)
    (hload : mapLoad p.m key = some cur) (hlive : cur.tomb = false) :
    (∀ pref, impl.preferOver = some pref → pref obj cur.obj = false →
      addKey impl p now key obj = p) ∧
    (impl.preferOver = none →
      mapLoad (addKey impl p now key obj).m key = some ⟨obj, zeroRemoved, false⟩) := by
  constructor
  · intro pref hpref hfalse
    simp [addKey, hload, hlive, hpref, hfalse]
  · intro hnone
    simp [addKey, hload, hlive, hnone, mapLoad_mapStore_self]

/-- Witness for `addKey_live_semantics` at concrete registries. -/
theorem addKey_live_semantics_wit :
    addKey sObjImplPref pLiveAP 1 "k" ⟨"k", "B"⟩ = pLiveAP ∧
    mapLoad (addKey sObjImpl pLiveA 1 "k" ⟨"k", "C"⟩).m "k" =
      some ⟨⟨"k", "C"⟩, zeroRemoved, false⟩ :=
  ⟨(addKey_live_semantics sObjImplPref pLiveAP 1 "k" ⟨"k", "B"⟩
      ⟨⟨"k", "A"⟩, zeroRemoved, false⟩ (by decide) rfl).1 (fun _ _ => false) rfl rfl,
   (addKey_live_semantics sObjImpl pLiveA 1 "k" ⟨"k", "C"⟩
      ⟨⟨"k", "A"⟩, zeroRemoved, false⟩ (by decide) rfl).2 rfl⟩

/-! ## Task context values (`task/task.go`, `SetValue`/`GetValue`) -/

/-- A task together with its ancestor chain up to the process root.
`root vals` is the singleton root task (whose `parent` field points at
itself in Go); `node vals parent` is any other task with its lazily
allocated value map (an absent map is the empty list).  Go keys and values
are `any`; the model is generic. -/
inductive TaskChain (K V : Type) where
  | root (vals : List (K × V))
  | node (vals : List (K × V)) (parent : TaskChain K V)

/-- Whether the Go pointer comparison `t == root` holds for this task. -/
def TaskChain.isRoot {K V : Type} : TaskChain K V → Bool
  | .root _ => true
  | .node _ _ => false

/-- `Task.GetValue` from `task/task.go`: look in the task's own map, then walk
to the parent, except that a task whose parent IS the root returns nil without
consulting the root (`if t.parent != root`); the root itself also stops after
its own map (`root.parent == root`). -/
def TaskChain.getValue {K V : Type} [DecidableEq K] : TaskChain K V → K → Option V
  | .root vals, key => mapLoad vals key
  | .node vals parent, key =>
    match mapLoad vals key with
    | some v => some v
    | none => if parent.isRoot then none else parent.getValue key

/-- `Task.SetValue` from `task/task.go`: store into the task's own map. -/
def TaskChain.setValue {K V : Type} [DecidableEq K] :
    TaskChain K V → K → V → TaskChain K V
  | .root vals, k, v => .root (mapStore vals k v)
  | .node vals p, k, v => .node (mapStore vals k v) p

/-- `SetValue` invoked on the process root of the chain. -/
def TaskChain.rootSet {K V : Type} [DecidableEq K] :
    TaskChain K V → K → V → TaskChain K V
  | .root vals, k, v => .root (mapStore vals k v)
  | .node vals p, k, v => .node vals (p.rootSet k v)

/-- The key misses in every non-root task map along the chain (the root's map
is unconstrained). -/
def TaskChain.nonRootMiss {K V : Type} [DecidableEq K] : TaskChain K V → K → Prop
  | .root _, _ => True
  | .node vals p, k => mapLoad vals k = none ∧ p.nonRootMiss k

theorem TaskChain.isRoot_rootSet {K V : Type} [DecidableEq K]
    (t : TaskChain K V) (k : K) (v : V) : (t.rootSet k v).isRoot = t.isRoot := by
  cases t <;> rfl

/-- C10: a value stored with `SetValue` on the process root task is invisible
to every other task: for any non-root task whose non-root ancestors do not
carry the key, `GetValue` returns nil because the upward walk stops before
the root. -/
theorem getValue_root_invisible {K V : Type} [DecidableEq K]
    (t : TaskChain K V) (k : K) (v : V)
    (hnonroot : t.isRoot = false) (hmiss : t.nonRootMiss k) :
    (t.rootSet k v).getValue k = none := by
  induction t with
  | root vals => simp [TaskChain.isRoot] at hnonroot
  | node vals p ih =>
    obtain ⟨h1, h2⟩ := hmiss
    cases p with
    | root rvals =>
      simp [TaskChain.rootSet, TaskChain.getValue, h1, TaskChain.isRoot]
    | node pvals pp =>
      have hrec := ih (by rfl) h2
      simp only [TaskChain.rootSet, TaskChain.getValue, h1] at hrec ⊢
      simpa [TaskChain.isRoot] using hrec

/-- Witness for `getValue_root_invisible`: a grandchild of the root sees
nothing after `SetValue("k", "v")` on the root. -/
theorem getValue_root_invisible_wit :
    ((TaskChain.node [] (TaskChain.node [] (TaskChain.root ([] : List (String × String))))).rootSet
        "k" "v").getValue "k" = none :=
  getValue_root_invisible
    (TaskChain.node [] (TaskChain.node [] (TaskChain.root [])))
    "k" "v" rfl ⟨rfl, rfl, trivial⟩

/-! ## Task finish protocol (`task/task.go`, `finish`/`FinishCause`) -/

/-- Model of the Go `error` values arising in the task package. -/
inductive GoErr where
  | canceled
  | errStr (s : String)
deriving Repr, DecidableEq

/-- The `reason any` argument of `Task.Finish`: nil, an error, or a string
(the `default` branch of `fmtCause` only fires for other dynamic types). -/
inductive Reason where
  | rnil
  | rerr (e : GoErr)
  | rstr (s : String)
deriving Repr, DecidableEq

/-- `fmtCause` from `task/utils.go`: nil stays nil, errors pass through,
strings become `errors.New`. -/
def fmtCause : Reason → Option GoErr
  | .rnil => none
  | .rerr e => some e
  | .rstr s => some (GoErr.errStr s)

/-- The fields of `Task` touched by the finish protocol: the `needFinish`
property (`done != closedCh`), the `finishCalled` flag, whether the `done`
channel is closed, and the task's cancellation context (`ctxDone` plus the
recorded cause). -/
structure TaskFinState where
  needFinish : Bool
  finishCalled : Bool
  doneClosed : Bool
  ctxDone : Bool
  cause : Option GoErr
deriving Repr, DecidableEq

/-- `context.CancelCauseFunc` semantics: only the first cancellation records a
cause; cancelling with a nil cause records `context.Canceled`. -/
def cancelCtx (t : TaskFinState) (c : Option GoErr) : TaskFinState :=
  if t.ctxDone then t
  else { t with ctxDone := true, cause := some (c.getD GoErr.canceled) }

/-- `Task.finish` from `task/task.go` projected onto `TaskFinState`: an early
return when `finishCalled` is already set (the repeated call only re-waits),
otherwise set the flag, cancel the context with the formatted cause, and close
`done` for needFinish tasks.  `waitFinish`, `reportStucked` and the detach from
the parent do not touch these fields. -/
def finishT (t : TaskFinState) (reason : Reason) : TaskFinState :=
  if t.finishCalled then t
  else
    let t1 := { t with finishCalled := true }
    let t2 := cancelCtx t1 (fmtCause reason)
    if t2.needFinish then { t2 with doneClosed := true } else t2

/-- `Task.FinishCause` from `task/task.go`: `context.Cause(t.ctx)`. -/
def finishCauseT (t : TaskFinState) : Option GoErr := t.cause

theorem finishT_called {t : TaskFinState} (h : t.finishCalled = true) (r : Reason) :
    finishT t r = t := by
  simp [finishT, h]

/-- C8: `finish` is idempotent with respect to the recorded cause: starting
from a task that has neither finished nor been cancelled, the first
`finish(reason)` with a non-nil reason records `fmtCause reason`, and any
sequence of later `finish` calls leaves the whole finish state — in particular
the cause reported by `FinishCause` — unchanged. -/
theorem finish_idempotent_cause (t0 : TaskFinState) (r : Reason) (rs : List Reason)
    (hnf : t0.finishCalled = false) (hnc : t0.ctxDone = false) (hr : r ≠ Reason.rnil) :
    finishCauseT (finishT t0 r) = fmtCause r ∧
    rs.foldl finishT (finishT t0 r) = finishT t0 r := by
  have hcalled : (finishT t0 r).finishCalled = true := by
    simp only [finishT, hnf, if_false, cancelCtx]
    by_cases h : t0.needFinish <;> simp [h, hnf, hnc]
  constructor
  · cases r with
    | rnil => exact absurd rfl hr
    | rerr e =>
      simp only [finishT, hnf, if_false, cancelCtx, finishCauseT]
      by_cases h : t0.needFinish <;> simp [h, hnc, fmtCause]
    | rstr s =>
      simp only [finishT, hnf, if_false, cancelCtx, finishCauseT]
      by_cases h : t0.needFinish <;> simp [h, hnc, fmtCause]
  · induction rs with
    | nil => rfl
    | cons hd tl ih =>
      simp only [List.foldl_cons, finishT_called hcalled, ih]

/-- Witness for `finish_idempotent_cause`: a fresh needFinish task finished
with reason `"shutdown"`, then finished twice more. -/
theorem finish_idempotent_cause_wit :
    finishCauseT (finishT ⟨true, false, false, false, none⟩ (Reason.rstr "shutdown")) =
      some (GoErr.errStr "shutdown") ∧
    [Reason.rstr "again", Reason.rnil].foldl finishT
        (finishT ⟨true, false, false, false, none⟩ (Reason.rstr "shutdown")) =
      finishT ⟨true, false, false, false, none⟩ (Reason.rstr "shutdown") :=
  finish_idempotent_cause ⟨true, false, false, false, none⟩ (Reason.rstr "shutdown")
    [Reason.rstr "again", Reason.rnil] rfl rfl (by decide)

/-! ## Single-result memo cache (`cache/state.go`) -/

/-- `CachedFuncState[T]` from `cache/state.go`: the builder configuration
(`retries`, `ttl`) plus the mutable cache fields.  `cached` is the `uintptr`
flag, `last` the `time.Time` of the last `setResult` (`0` is Go's zero time).
`ttl = 0` means never expire. -/
structure CachedFuncState (T : Type) where
  retries : Nat
  ttl : Nat
  result : T
  err : Option GoErr
  cached : Bool
  last : Nat
deriving Repr, DecidableEq

/-- `CachedFuncState.checkExpired` from `cache/state.go`. -/
def CachedFuncState.checkExpired {T : Type} (st : CachedFuncState T) (now : Nat) : Bool :=
  if st.ttl = 0 then false
  else if st.last = 0 then true
  else decide (now - st.last > st.ttl)

/-- `CachedFuncState.setResult` from `cache/state.go`. -/
def CachedFuncState.setResult {T : Type} (st : CachedFuncState T) (now : Nat)
    (result : T) (err : Option GoErr) : CachedFuncState T :=
  { st with
    cached := true
    result := result
    err := err
    last := if st.ttl > 0 then now else st.last }

/-- The retry loop of `CachedFuncState.callContext` (`cache/state.go` lines
62-77), transcribed as written: the loop runs while `retries > 0` WITHOUT
checking whether the initial call already succeeded; each iteration either
returns early on a done context, or decrements, sleeps, re-invokes `fn` and
breaks once `err == nil`.  `fn i` is the outcome of the i-th invocation.
Returns the final `(result, err)`, the number of extra invocations, and
whether the context-done arm returned early. -/
def sRetryLoop {T : Type} (fn : Nat → T × Option GoErr) (ctxDone : Bool) :
    Nat → Nat → (T × Option GoErr) → (T × Option GoErr) × Nat × Bool
  | 0, _, res => (res, 0, false)
  | retries + 1, i, res =>
    if ctxDone then (res, 0, true)
    else
      let res2 := fn i
      if res2.2 = none then (res2, 1, false)
      else
        let r3 := sRetryLoop fn ctxDone retries (i + 1) res2
        (r3.1, r3.2.1 + 1, r3.2.2)

/-- `CachedFuncState.callContext` from `cache/state.go`.  The atomic fast-path
check and the re-check under the mutex coincide for a sequential caller and
are merged.  Returns the call's `(result, err)`, the updated state, and how
many times `fn` was invoked. -/
def CachedFuncState.callContext {T : Type} (st : CachedFuncState T)
    (fn : Nat → T × Option GoErr) (ctxDone : Bool) (ctxCause : Option GoErr)
    (now : Nat) : (T × Option GoErr) × CachedFuncState T × Nat :=
  if st.cached ∧ ¬ st.checkExpired now then ((st.result, st.err), st, 0)
  else
    let res0 := fn 0
    let lp := sRetryLoop fn ctxDone st.retries 1 res0
    let resF := lp.1
    let st1 := { st with result := resF.1, err := resF.2 }
    if lp.2.2 then ((resF.1, ctxCause), st1, 1 + lp.2.1)
    else ((resF.1, resF.2), st1.setResult now resF.1 resF.2, 1 + lp.2.1)

/-- C2 (divergence witness): with `retries = 1` and a wrapped function that
succeeds on its very first invocation (`k = 0` failures), one call of the
cached function on a cache miss invokes the wrapped function TWICE, not once:
the retry loop at `cache/state.go` line 63 is entered even though
`state.err == nil` (unlike the keyed variant, which guards the loop with
`if entry.err != nil`).  The returned error is nil and the result is cached,
but the invocation count contradicts the claim. -/
theorem cachedFunc_success_double_invoke :
    CachedFuncState.callContext (⟨1, 0, 0, none, false, 0⟩ : CachedFuncState Nat)
      (fun _ => (42, none)) false none 5 =
    ((42, none), ⟨1, 0, 42, none, true, 0⟩, 2) := by decide

/-! ## Keyed memo cache with LRU janitor (`cache` package, keyed state file) -/

/-- `CacheEntry[T]` from the keyed cache.  `hasElem` models
`entry.element != nil` (the `container/list` node holding this entry's key);
the node's position is the key's position in the `mru` list. -/
structure KCacheEntry (T : Type) where
  result : T
  err : Option GoErr
  expireAt : Nat
  hasElem : Bool
deriving Repr, DecidableEq

/-- `CachedContextKeyFuncState[T, K]`: builder configuration plus the entries
map and the MRU list (front = most recently used). -/
structure KeyFuncState (T K : Type) where
  retries : Nat
  ttl : Nat
  maxEntries : Nat
  entries : List (K × KCacheEntry T)
  mru : List K
deriving Repr, DecidableEq

/-- `CachedContextKeyFuncState.checkExpired`: with `ttl = 0` entries never
expire; otherwise `time.Now().After(entry.expireAt)` (a zero `expireAt` is in
the past, hence expired). -/
def KeyFuncState.checkExpired {T K : Type} (st : KeyFuncState T K)
    (entry : KCacheEntry T) (now : Nat) : Bool :=
  if st.ttl = 0 then false else decide (now > entry.expireAt)

/-- `moveToFront` from the keyed cache: with an existing list element
(`hasElem`) move the key's node to the front, otherwise `PushFront` the key. -/
def mruMoveToFront {K : Type} [DecidableEq K] (mru : List K) (k : K)
    (hasElem : Bool) : List K :=
  if hasElem then k :: mru.erase k else k :: mru

/-- The retry loop of `CachedContextKeyFuncState.callContext`; in the keyed
variant it is guarded by `if entry.err != nil`, so it is only entered after a
failed initial call.  The wrapped function is deterministic per key.  Returns
the final `(result, err)` and whether the context-done arm returned early. -/
def kRetryLoop {T K : Type} (fn : K → T × Option GoErr) (key : K) (ctxDone : Bool) :
    Nat → (T × Option GoErr) → (T × Option GoErr) × Bool
  | 0, res => (res, false)
  | retries + 1, res =>
    if ctxDone then (res, true)
    else
      let res2 := fn key
      if res2.2 = none then (res2, false)
      else kRetryLoop fn key ctxDone retries res2

/-- `CachedContextKeyFuncState.callContext`.  `LoadOrCompute` either finds the
entry (`loaded`) or inserts a fresh one; a loaded, non-expired entry returns
the cached pair WITHOUT touching the MRU list; only a newly created entry is
pushed to the MRU front (and re-touched by the deferred `moveToFront` when the
call returns), and only a newly created entry can raise the janitor trigger
(`entries.Size() > maxEntries`).  Returns the call's `(result, err)`, the
updated state, and whether `Janitor.TriggerCleanup` was requested. -/
def KeyFuncState.callContext {T K : Type} [DecidableEq K] [Inhabited T]
    (st : KeyFuncState T K) (key : K) (fn : K → T × Option GoErr)
    (ctxDone : Bool) (ctxCause : Option GoErr) (now : Nat) :
    (T × Option GoErr) × KeyFuncState T K × Bool :=
  match mapLoad st.entries key with
  | some entry =>
    if ¬ st.checkExpired entry now then ((entry.result, entry.err), st, false)
    else
      -- loaded but expired: recompute in place, no MRU ops, no trigger
      let res0 := fn key
      let lp := if res0.2 = none then (res0, false)
                else kRetryLoop fn key ctxDone st.retries res0
      let entry2 := { entry with result := lp.1.1, err := lp.1.2 }
      if lp.2 then
        ((entry2.result, ctxCause), { st with entries := mapStore st.entries key entry2 }, false)
      else
        let entry3 := if st.ttl > 0 then { entry2 with expireAt := now + st.ttl } else entry2
        ((entry3.result, entry3.err),
         { st with entries := mapStore st.entries key entry3 }, false)
  | none =>
    let entry0 : KCacheEntry T := ⟨default, none, 0, false⟩
    let entries1 := mapStore st.entries key entry0
    let hasElem := decide (st.maxEntries > 0)
    let mru1 := if st.maxEntries > 0 then mruMoveToFront st.mru key false else st.mru
    let trigger := decide (st.maxEntries > 0) && decide (entries1.length > st.maxEntries)
    let res0 := fn key
    let lp := if res0.2 = none then (res0, false)
              else kRetryLoop fn key ctxDone st.retries res0
    let entry2 : KCacheEntry T := { entry0 with result := lp.1.1, err := lp.1.2, hasElem := hasElem }
    let mru2 := if hasElem then mruMoveToFront mru1 key true else mru1
    if lp.2 then
      ((entry2.result, ctxCause),
       { st with entries := mapStore entries1 key entry2, mru := mru2 }, trigger)
    else
      let entry3 := if st.ttl > 0 then { entry2 with expireAt := now + st.ttl } else entry2
      ((entry3.result, entry3.err),
       { st with entries := mapStore entries1 key entry3, mru := mru2 }, trigger)

/-- The eviction loop of `Cleanup`: while the MRU list is longer than
`maxEntries`, remove the list's back element and delete that key from the
entries map.  The fuel starts at the list length, which bounds the loop. -/
def dropOldest {T K : Type} [DecidableEq K] :
    Nat → List K → List (K × KCacheEntry T) → Nat → List K × List (K × KCacheEntry T)
  | 0, mru, entries, _ => (mru, entries)
  | fuel + 1, mru, entries, maxE =>
    if mru.length > maxE then
      match mru.getLast? with
      | some k => dropOldest fuel mru.dropLast (mapDelete entries k) maxE
      | none => (mru, entries)
    else (mru, entries)

/-- `CachedContextKeyFuncState.Cleanup`: a no-op unless `maxEntries` is set
and exceeded; then evict from the MRU tail until the list fits. -/
def KeyFuncState.cleanup {T K : Type} [DecidableEq K]
    (st : KeyFuncState T K) : KeyFuncState T K :=
  if st.maxEntries = 0 then st
  else if st.entries.length ≤ st.maxEntries then st
  else
    let r := dropOldest st.mru.length st.mru st.entries st.maxEntries
    { st with mru := r.1, entries := r.2 }

/-- The wrapped function of scenario E6: always succeeds. -/
def lruFn : String → Nat × Option GoErr := fun _ => (10, none)

/-- The keyed cache state after `call("a"); call("b"); call("a"); call("c")`
with `maxEntries = 2`, `ttl = 0`, followed by the janitor cleanup. -/
def lruScenario : KeyFuncState Nat String :=
  let st0 : KeyFuncState Nat String := ⟨0, 0, 2, [], []⟩
  let st1 := (st0.callContext "a" lruFn false none 0).2.1
  let st2 := (st1.callContext "b" lruFn false none 0).2.1
  let st3 := (st2.callContext "a" lruFn false none 0).2.1
  let st4 := (st3.callContext "c" lruFn false none 0).2.1
  st4.cleanup

/-- C3 (divergence witness): the LRU order is NOT touched on a non-expired
hit — the hit path returns before any `moveToFront` — so after
`call("a"); call("b"); call("a"); call("c")` with `max_entries = 2`, `TTL = 0`
and a janitor cleanup (which the fourth call does trigger), the surviving keys
are exactly `{"b","c"}`: the janitor evicts `"a"` (the MRU list still reads
`c, b, a`), not `"b"` as the claim asserts. -/
theorem keyed_lru_hit_not_touched :
    lruScenario.entries.map Prod.fst = ["b", "c"] ∧
    lruScenario.mru = ["c", "b"] ∧
    (let st0 : KeyFuncState Nat String := ⟨0, 0, 2, [], []⟩
     let st1 := (st0.callContext "a" lruFn false none 0).2.1
     let st2 := (st1.callContext "b" lruFn false none 0).2.1
     let st3 := (st2.callContext "a" lruFn false none 0).2.1
     (st3.callContext "c" lruFn false none 0).2.2) = true := by decide

/-! ## OnFinished callbacks versus children (`task/task.go`, `addCallback`/`finish`)

The callback watcher registered by `addCallback` (lines 157-178) runs when the
task's context is cancelled: it first spawns the non-waiting (OnCancel)
callbacks, then blocks on `<-t.done`, then spawns the waiting (OnFinished)
callbacks.  `finish` (lines 218-245) closes `t.done` immediately after raising
cancellation — before any wait for children — so the only gate in front of the
OnFinished callbacks is the task's own `done` channel.  The transition system
below has exactly the schedulable events of this code for one needFinish
parent carrying one registered OnFinished callback and one needFinish child. -/

/-- Scheduler-visible state of the two-task scenario. -/
structure TaskSys where
  t : TaskFinState
  childFinished : Bool
  childCtxDone : Bool
  phase1Done : Bool
  onFinishedRun : Bool
deriving Repr, DecidableEq

/-- One schedulable event, each justified by `task/task.go`:
`finish` is the body of `Task.finish` up to and including `close(t.done)`
(cancellation propagates to the child's derived context at the `cancel` call);
`phase1` is the watcher's OnCancel sweep, enabled once the context is done;
`phase2` spawns the OnFinished callbacks, enabled once `phase1` ran and
`t.done` is closed — the code consults nothing about children here;
`childFin` is the child's own `finish` running to completion. -/
inductive TaskStep : TaskSys → TaskSys → Prop where
  | finish (s : TaskSys) (reason : Reason) (h : s.t.finishCalled = false) :
      TaskStep s { s with
        t := finishT s.t reason
        childCtxDone := s.childCtxDone || (finishT s.t reason).ctxDone }
  | phase1 (s : TaskSys) (h1 : s.t.ctxDone = true) (h2 : s.phase1Done = false) :
      TaskStep s { s with phase1Done := true }
  | phase2 (s : TaskSys) (h1 : s.phase1Done = true) (h2 : s.t.doneClosed = true)
      (h3 : s.onFinishedRun = false) :
      TaskStep s { s with onFinishedRun := true }
  | childFin (s : TaskSys) (h : s.childFinished = false) :
      TaskStep s { s with childFinished := true }

/-- Reachability along schedulable events. -/
def taskSysReach : TaskSys → TaskSys → Prop := Relation.ReflTransGen TaskStep

/-- A fresh needFinish parent (OnFinished callback registered) with a fresh
needFinish child. -/
def taskSysInit : TaskSys := ⟨⟨true, false, false, false, none⟩, false, false, false, false⟩

/-- C1 (divergence witness): the code admits a schedule in which the parent's
OnFinished callback executes while the child has NOT finished: call
`t.Finish("stop")` (which closes `t.done` without waiting for children), let
the watcher run its two sweeps.  This contradicts both the claim and the doc
comment of `OnFinished` ("when the task is canceled and all subtasks are
finished"). -/
theorem onFinished_runs_before_child_finishes :
    ∃ s : TaskSys, taskSysReach taskSysInit s ∧
      s.onFinishedRun = true ∧ s.childFinished = false := by
  refine ⟨_, Relation.ReflTransGen.head
      (TaskStep.finish taskSysInit (Reason.rstr "stop") rfl)
      (Relation.ReflTransGen.head (TaskStep.phase1 _ rfl rfl)
        (Relation.ReflTransGen.head (TaskStep.phase2 _ rfl rfl rfl)
          Relation.ReflTransGen.refl)), rfl, rfl⟩

/-! ## Sized/unsized byte-buffer pools (`synk/pool.go`) -/

/-- `poolChannelSize` from `synk/pool.go`. -/
def poolChannelSize (idx : Nat) : Nat := max 8 (256 >>> idx)

/-- `UnsizedPoolSize = UnsizedPoolLimit / MinAllocSize`. -/
def unsizedPoolSize : Nat := 16 * 1024 * 1024 / minAllocSize

/-- `LargePoolChannelSize` from `synk/pool.go`. -/
def largePoolChannelSize : Nat := 16

/-- A Go byte slice as the pool sees it: base address, length, capacity.
`len` is an `Int` because `setLen` writes the requested size through an
unsafe pointer without validation. -/
structure Buf where
  ptr : Nat
  len : Int
  cap : Nat
deriving Repr, DecidableEq

/-- State of the pools: the sized tier queues (`pools`, length `sizedPools`),
the large and unsized queues, the `sizedFullCaps` table, and a cursor handing
out fresh base addresses.  A queue slot `none` is a weak reference whose
referent was reclaimed (`weak.Pointer.Value() == nil`); channels are FIFO. -/
structure SynkState where
  pools : List (List (Option Buf))
  largePool : List (Option Buf)
  unsizedPool : List (Option Buf)
  fullCaps : List (Nat × Nat)
  nextPtr : Nat
deriving Repr, DecidableEq

/-- The state right after `initAll`. -/
def synkInit : SynkState := ⟨List.replicate sizedPools [], [], [], [], 1⟩

/-- Queue accessor (`p.pools[idx]`). -/
def getPool (pools : List (List (Option Buf))) (idx : Nat) : List (Option Buf) :=
  pools.getD idx []

/-- Queue replacement. -/
def setPool (pools : List (List (Option Buf))) (idx : Nat) (q : List (Option Buf)) :
    List (List (Option Buf)) :=
  pools.set idx q

/-- Drain a queue until a weak reference upgrades (`getBufFromWeak != nil`) or
the channel is empty; returns the buffer (if any) and the remaining queue. -/
def pullBuf : List (Option Buf) → Option Buf × List (Option Buf)
  | [] => (none, [])
  | none :: rest => pullBuf rest
  | some b :: rest => (some b, rest)

/-- `storeFullCap` from `synk/pool.go`. -/
def storeFullCapS (st : SynkState) (b : Buf) (c : Nat) : SynkState :=
  if c = 0 then st
  else if b.ptr = 0 then st
  else if c = b.cap then st
  else { st with fullCaps := mapStore st.fullCaps b.ptr c }

/-- `restoreFullCap` from `synk/pool.go`: consult and remove the table entry
for the base address, widening the capacity. -/
def restoreFullCapS (st : SynkState) (b : Buf) : Buf × SynkState :=
  if b.ptr = 0 then (b, st)
  else
    match mapLoad st.fullCaps b.ptr with
    | some c => ({ b with cap := c }, { st with fullCaps := mapDelete st.fullCaps b.ptr })
    | none => (b, st)

/-- The free function `put(b, pool)` targeting the unsized queue:
`restoreFullCap`, truncate to length 0, publish weakly, drop when full. -/
def putUnsized (st : SynkState) (b : Buf) : SynkState :=
  let r := restoreFullCapS st b
  let b2 := { r.1 with len := (0 : Int) }
  let st2 := r.2
  if st2.unsizedPool.length < unsizedPoolSize then
    { st2 with unsizedPool := st2.unsizedPool ++ [some b2] }
  else st2

/-- The free function `put(b, pool)` targeting the large queue. -/
def putLarge (st : SynkState) (b : Buf) : SynkState :=
  let r := restoreFullCapS st b
  let b2 := { r.1 with len := (0 : Int) }
  let st2 := r.2
  if st2.largePool.length < largePoolChannelSize then
    { st2 with largePool := st2.largePool ++ [some b2] }
  else st2

/-- `SizedBytesPool.put` from `synk/pool.go`: restore the full capacity,
classify by capacity into the unsized queue, a sized tier (with the
rounding-slack decrement), or the large queue.  The inner free `put` repeats
`restoreFullCap`, which is a no-op because the entry was just removed.
`isRemaining` only feeds statistics. -/
def sizedPut (st : SynkState) (b : Buf) : SynkState :=
  let r := restoreFullCapS st b
  let b1 := r.1
  let st1 := r.2
  let capB := b1.cap
  if capB < allocSize 0 then putUnsized st1 b1
  else if capB ≤ allocSize (sizedPools - 1) then
    let idx0 := poolIdx (capB : Int)
    let idx := if capB < allocSize idx0 then idx0 - 1 else idx0
    let q := getPool st1.pools idx
    if q.length < poolChannelSize idx then
      { st1 with pools := setPool st1.pools idx (q ++ [some { b1 with len := (0 : Int) }]) }
    else st1
  else putLarge st1 b1

/-- `UnsizedBytesPool.Get` from `synk/pool.go`: drain the unsized queue; on a
hit return the buffer as stored (length 0), otherwise allocate
`make([]byte, 0, MinAllocSize)`. -/
def unsizedGet (st : SynkState) : Buf × SynkState :=
  match pullBuf st.unsizedPool with
  | (some b, q) => (b, { st with unsizedPool := q })
  | (none, q) =>
    ({ ptr := st.nextPtr, len := 0, cap := minAllocSize },
     { st with unsizedPool := q, nextPtr := st.nextPtr + minAllocSize })

/-- The `size > p.max` arm of `GetSized`: drain the large queue; a buffer with
insufficient capacity is grown (`slices.Grow` allocates a fresh array of
capacity at least `size`; the model picks exactly `size`, and the subsequent
`storeFullCap(newB, cap(newB))` is a no-op); otherwise truncate to `size`.
An empty queue allocates `make([]byte, size)`. -/
def largeGet (st : SynkState) (size : Int) : Buf × SynkState :=
  match pullBuf st.largePool with
  | (some b, q) =>
    let st1 := { st with largePool := q }
    if (b.cap : Int) < size then
      ({ ptr := st1.nextPtr, len := size, cap := size.toNat },
       { st1 with nextPtr := st1.nextPtr + size.toNat })
    else ({ b with len := size }, st1)
  | (none, q) =>
    let st1 := { st with largePool := q }
    ({ ptr := st1.nextPtr, len := size, cap := size.toNat },
     { st1 with nextPtr := st1.nextPtr + size.toNat })

/-- The tier scan of `GetSized` (`for idx < SizedPools`), iterating the given
index list.  A drained tier advances to the next index; a hit either splits
(`remaining > p.min`: the tail `b[size:]` is re-published via `p.put` and the
prefix `b[:size:size]` is returned with its full capacity recorded) or returns
`b[:size]`.  When every tier misses, allocate `allocSize(targetIdx)` and
return its `size` prefix. -/
def sizedGetLoop (size : Int) (targetIdx : Nat) :
    SynkState → List Nat → Buf × SynkState
  | st, [] =>
    let capacity := allocSize targetIdx
    ({ ptr := st.nextPtr, len := size, cap := capacity },
     { st with nextPtr := st.nextPtr + capacity })
  | st, idx :: rest =>
    match pullBuf (getPool st.pools idx) with
    | (some b, q) =>
      let st1 := { st with pools := setPool st.pools idx q }
      let capB := b.cap
      let remainingSize := (capB : Int) - size
      if remainingSize > (allocSize 0 : Int) then
        let tail : Buf := { ptr := b.ptr + size.toNat, len := (capB : Int) - size,
                            cap := capB - size.toNat }
        let st2 := sizedPut st1 tail
        let front : Buf := { ptr := b.ptr, len := size, cap := size.toNat }
        (front, storeFullCapS st2 front capB)
      else ({ b with len := size }, st1)
    | (none, _q) =>
      sizedGetLoop size targetIdx
        { st with pools := setPool st.pools idx [] } rest

/-- `SizedBytesPool.GetSized` from `synk/pool.go`: sizes below `p.min` are
served from the unsized pool with the length forced by `setLen` (no capacity
check and no error path); sizes above `p.max` go to the large queue; sized
requests scan tiers from `poolIdx(size)` upward. -/
def getSized (st : SynkState) (size : Int) : Buf × SynkState :=
  if size < (allocSize 0 : Int) then
    let r := unsizedGet st
    ({ r.1 with len := size }, r.2)
  else if size > (allocSize (sizedPools - 1) : Int) then largeGet st size
  else
    sizedGetLoop size (poolIdx size) st
      (List.range' (poolIdx size) (sizedPools - poolIdx size))

/-- C6 counterexample: `GetSized(-1)` on the freshly initialised pool does not
fail — `GetSized` has no error path at all — it takes the `size < p.min`
branch, obtains a fresh unsized buffer and `setLen` forces its length to the
negative request. -/
theorem getSized_negative_returns_buffer_cex :
    (getSized synkInit (-1)).1 = ⟨1, -1, 4096⟩ := by decide

/-- C6 amended: `GetSized` with a negative size raises no error: the request
falls into the small-size path and the returned buffer's length is set to the
negative size by `setLen` (capacity is whatever the unsized pool supplied). -/
theorem getSized_negative_no_error (st : SynkState) (n : Int) (h : n < 0) :
    ((getSized st n).1).len = n := by
  have h2 : n < (allocSize 0 : Int) := by
    have e : (allocSize 0 : Int) = 2048 := by decide
    omega
  simp only [getSized, if_pos h2]

/-- Witness for `getSized_negative_no_error`. -/
theorem getSized_negative_no_error_wit :
    ((getSized synkInit (-5)).1).len = -5 :=
  getSized_negative_no_error synkInit (-5) (by decide)

/-- The pool state after a caller returns a 100-byte user buffer through
`SizedBytesPool.Put` (`cap < p.min` routes it to the unsized queue). -/
def smallPutState : SynkState := sizedPut synkInit ⟨999, 0, 100⟩

/-- C5 counterexample: serving `GetSized(500)` from a recycled unsized buffer
of capacity 100 returns that very buffer with its length forced to 500 — the
code performs no capacity check on the small path, so `cap(b) ≥ n` fails and
the undersized buffer is NOT dropped in favour of a fresh allocation. -/
theorem getSized_small_recycled_cex :
    (getSized smallPutState 500).1 = ⟨999, 500, 100⟩ ∧
      ¬ (500 ≤ ((getSized smallPutState 500).1).cap) := by decide

theorem allocSize_mono {i j : Nat} (h : i ≤ j) : allocSize i ≤ allocSize j := by
  rw [allocSize_eq, allocSize_eq]
  exact Nat.pow_le_pow_right (by norm_num) (by omega)

theorem pullBuf_mem {q : List (Option Buf)} :
    ∀ {b : Buf} {q2 : List (Option Buf)}, pullBuf q = (some b, q2) → some b ∈ q := by
  induction q with
  | nil => intro b q2 h; simp [pullBuf] at h
  | cons hd tl ih =>
    intro b q2 h
    cases hd with
    | none =>
      rw [show pullBuf (none :: tl) = pullBuf tl from rfl] at h
      exact List.mem_cons_of_mem _ (ih h)
    | some b0 =>
      rw [show pullBuf (some b0 :: tl) = (some b0, tl) from rfl] at h
      injection h with h1 h2
      injection h1 with h3
      rw [← h3]
      exact List.mem_cons_self _ _

/-- Every buffer weakly held by the unsized queue has capacity at least
`MinAllocSize` (true of every buffer the pool allocates itself; the C5
counterexample shows user-supplied buffers can break it). -/
def unsizedWF (st : SynkState) : Prop :=
  ∀ b : Buf, some b ∈ st.unsizedPool → minAllocSize ≤ b.cap

/-- Tier invariant established by `sizedPut`: tier `i` only holds buffers of
capacity at least `allocSize i`. -/
def poolsWF (st : SynkState) : Prop :=
  ∀ i : Nat, ∀ b : Buf, some b ∈ getPool st.pools i → allocSize i ≤ b.cap

theorem mem_getPool_set :
    ∀ (pools : List (List (Option Buf))) (idx j : Nat)
      (q : List (Option Buf)) (x : Option Buf),
      x ∈ getPool (setPool pools idx q) j → x ∈ q ∨ x ∈ getPool pools j := by
  intro pools
  induction pools with
  | nil =>
    intro idx j q x hx
    simp [setPool, getPool] at hx
  | cons hd tl ih =>
    intro idx j q x hx
    cases idx with
    | zero =>
      cases j with
      | zero =>
        simp only [setPool, getPool, List.set, List.getD_cons_zero] at hx
        exact Or.inl hx
      | succ j2 =>
        simp only [setPool, getPool, List.set, List.getD_cons_succ] at hx ⊢
        exact Or.inr hx
    | succ idx2 =>
      cases j with
      | zero =>
        simp only [setPool, getPool, List.set, List.getD_cons_zero] at hx ⊢
        exact Or.inr hx
      | succ j2 =>
        simp only [setPool, getPool, List.set, List.getD_cons_succ] at hx ⊢
        exact ih idx2 j2 q x hx

theorem poolsWF_set_empty {st : SynkState} (h : poolsWF st) (idx : Nat) :
    poolsWF { st with pools := setPool st.pools idx [] } := by
  intro i b hmem
  rcases mem_getPool_set st.pools idx i [] (some b) hmem with h1 | h2
  · simp at h1
  · exact h i b h2

theorem sizedGetLoop_len_cap (size : Int) (targetIdx : Nat)
    (hpos : 0 ≤ size) (hsize : size ≤ (allocSize targetIdx : Int)) :
    ∀ (l : List Nat) (st : SynkState), poolsWF st → (∀ i ∈ l, targetIdx ≤ i) →
      ((sizedGetLoop size targetIdx st l).1).len = size ∧
      size ≤ (((sizedGetLoop size targetIdx st l).1).cap : Int) := by
  intro l
  induction l with
  | nil =>
    intro st hP hl
    exact ⟨rfl, hsize⟩
  | cons idx rest ih =>
    intro st hP hl
    rcases hpull : pullBuf (getPool st.pools idx) with ⟨ob, q⟩
    cases ob with
    | some b =>
      have hbmem : some b ∈ getPool st.pools idx := pullBuf_mem hpull
      have hcap : allocSize idx ≤ b.cap := hP idx b hbmem
      have hti : targetIdx ≤ idx := hl idx (List.mem_cons_self _ _)
      have hmono := allocSize_mono hti
      have hcap2 : size ≤ (b.cap : Int) := by omega
      simp only [sizedGetLoop]
      rw [hpull]
      by_cases hrem : (b.cap : Int) - size > (allocSize 0 : Int)
      · simp only [if_pos hrem]
        refine ⟨by trivial, ?_⟩
        omega
      · simp only [if_neg hrem]
        refine ⟨by trivial, ?_⟩
        simpa using hcap2
    | none =>
      simp only [sizedGetLoop]
      rw [hpull]
      exact ih _ (poolsWF_set_empty hP idx) (fun i hi => hl i (List.mem_cons_of_mem _ hi))

theorem unsizedGet_some {st : SynkState} {b : Buf} {q : List (Option Buf)}
    (h : pullBuf st.unsizedPool = (some b, q)) :
    unsizedGet st = (b, { st with unsizedPool := q }) := by
  unfold unsizedGet; rw [h]

theorem unsizedGet_none {st : SynkState} {q : List (Option Buf)}
    (h : pullBuf st.unsizedPool = (none, q)) :
    unsizedGet st = ({ ptr := st.nextPtr, len := 0, cap := minAllocSize },
      { st with unsizedPool := q, nextPtr := st.nextPtr + minAllocSize }) := by
  unfold unsizedGet; rw [h]

theorem largeGet_some {st : SynkState} {b : Buf} {q : List (Option Buf)} (size : Int)
    (h : pullBuf st.largePool = (some b, q)) :
    largeGet st size =
      if (b.cap : Int) < size then
        ({ ptr := st.nextPtr, len := size, cap := size.toNat },
         { st with largePool := q, nextPtr := st.nextPtr + size.toNat })
      else ({ b with len := size }, { st with largePool := q }) := by
  unfold largeGet; rw [h]

theorem largeGet_none {st : SynkState} {q : List (Option Buf)} (size : Int)
    (h : pullBuf st.largePool = (none, q)) :
    largeGet st size =
      ({ ptr := st.nextPtr, len := size, cap := size.toNat },
       { st with largePool := q, nextPtr := st.nextPtr + size.toNat }) := by
  unfold largeGet; rw [h]

/-- C5 amended: `GetSized(n)` always returns a buffer of length exactly `n`;
its capacity is at least `n` provided every buffer recycled through the
unsized queue has capacity at least `MinAllocSize` and the sized tiers satisfy
their capacity invariant (both hold for every buffer the pool allocates
itself).  On the small path an undersized recycled buffer is returned as-is
with its length forced, not dropped; on the large path an undersized buffer is
grown, which does allocate fresh memory of the requested size. -/
theorem getSized_len_cap (st : SynkState) (n : Int)
    (hU : unsizedWF st) (hP : poolsWF st) (hn : 0 ≤ n) :
    ((getSized st n).1).len = n ∧ n ≤ (((getSized st n).1).cap : Int) := by
  have e0 : (allocSize 0 : Int) = 2048 := by decide
  have eM : (allocSize (sizedPools - 1) : Int) = 2097152 := by decide
  have hms : minAllocSize = 4096 := rfl
  by_cases h1 : n < (allocSize 0 : Int)
  · simp only [getSized, if_pos h1]
    rcases hpull : pullBuf st.unsizedPool with ⟨ob, q⟩
    cases ob with
    | some b =>
      have hc := hU b (pullBuf_mem hpull)
      rw [unsizedGet_some hpull]
      refine ⟨by trivial, ?_⟩
      show n ≤ (b.cap : Int)
      omega
    | none =>
      rw [unsizedGet_none hpull]
      refine ⟨by trivial, ?_⟩
      show n ≤ (minAllocSize : Int)
      omega
  · by_cases h2 : n > (allocSize (sizedPools - 1) : Int)
    · simp only [getSized, if_neg h1, if_pos h2]
      rcases hpull : pullBuf st.largePool with ⟨ob, q⟩
      cases ob with
      | some b =>
        rw [largeGet_some n hpull]
        by_cases h3 : (b.cap : Int) < n
        · rw [if_pos h3]
          refine ⟨by trivial, ?_⟩
          show n ≤ (n.toNat : Int)
          omega
        · rw [if_neg h3]
          refine ⟨by trivial, ?_⟩
          show n ≤ (b.cap : Int)
          omega
      | none =>
        rw [largeGet_none n hpull]
        refine ⟨by trivial, ?_⟩
        show n ≤ (n.toNat : Int)
        omega
    · simp only [getSized, if_neg h1, if_neg h2]
      have hpos : (0 : Int) < n := by omega
      have hle : n ≤ (allocSize (sizedPools - 1) : Int) := by omega
      exact sizedGetLoop_len_cap n (poolIdx n) hn (le_allocSize_poolIdx hpos hle)
        _ st hP (fun i hi => (List.mem_range'_1.mp hi).1)

/-- Witness for `getSized_len_cap` on the freshly initialised pool. -/
theorem getSized_len_cap_wit :
    ((getSized synkInit 8192).1).len = 8192 ∧
      (8192 : Int) ≤ (((getSized synkInit 8192).1).cap : Int) :=
  getSized_len_cap synkInit 8192
    (by intro b hb; simp [synkInit] at hb)
    (by
      intro i b hb
      simp only [synkInit, getPool] at hb
      rw [List.getD_eq_getElem?_getD, List.getElem?_replicate] at hb
      by_cases h : i < sizedPools
      · simp [h] at hb
      · simp [h] at hb)
    (by decide)
